import Mathlib

/-!
A shallow embedding of the response-recognition and bounded-capture core of
LiteESP8266Client (src/LiteESP8266Client.cpp), together with theorems about
the behaviour of the embedded operations.

Modelling conventions:
* The serial stream is modelled as the list of bytes that arrive before the
  operation's deadline, in order.  An operation that exhausts the list
  without finishing corresponds to the deadline passing (the millis() check
  of the source); the source returns LITE_ESP8266_TIMEOUT there.
* Bytes are natural numbers (byte values 0..255 as used by the driver).
* The source targets AVR (Arduino Uno), where int is 16 bits wide, so
  uint16_t / unsigned int arithmetic wraps modulo 2^16; the wrapping
  subtractions (max_bytes - 1, bytes_allocated - 1) are made explicit
  below with (x + 65535) % 65536.
* Buffer mutation by copy_serial_to_buffer is recorded as an explicit list
  of (index, value) write events in program order; bufAfter folds such a
  log over an initial buffer-contents function to give the final contents.
-/

/-- The four result codes of the driver: LITE_ESP8266_SUCCESS (0),
LITE_ESP8266_FAILURE (1), LITE_ESP8266_TIMEOUT (2),
LITE_ESP8266_LENGTH_EXCEEDED (3) from LiteESP8266Client.h:61-64. -/
inductive LiteResult
  | Success
  | Failure
  | Timeout
  | LengthExceeded
deriving DecidableEq, Repr

abbrev Byte := Nat

/-- Reading index i of a NUL-terminated token stored in program memory
(pgm_read_byte_near(token + i) in the source): positions below the token
length hold the token bytes and the position at the token length holds the
terminating NUL byte, 0.  List.getD returns 0 there.  (Positions beyond
the terminator are unmapped memory in the source; getD also gives 0 for
those, but no theorem below depends on such positions: the zero-length
token counterexample only ever reads position 0 of the empty string,
which is its terminator.) -/
def tokenByte (t : List Byte) (i : Nat) : Byte := t.getD i 0

/-- LiteESP8266::read_for_response (LiteESP8266Client.cpp:232-263).
Scans the stream byte by byte, holding a cursor matched_chars: a byte equal
to the token byte at the cursor advances the cursor (returning
LITE_ESP8266_SUCCESS as soon as the cursor reaches the token length), any
other byte resets the cursor to zero and is dropped.  Exhausting the
stream is the deadline passing: LITE_ESP8266_TIMEOUT.  The unread tail of
the stream is returned alongside the result code (in the source it simply
stays in the serial buffer). -/
def read_for_response (token : List Byte) : Nat → List Byte → LiteResult × List Byte
  | _, [] => (LiteResult.Timeout, [])
  | matched_chars, b :: rest =>
    if b = tokenByte token matched_chars ∧ matched_chars + 1 = token.length then
      (LiteResult.Success, rest)
    else
      read_for_response token
        (if b = tokenByte token matched_chars then matched_chars + 1 else 0) rest

/-- Observer for read_for_response: the number of bytes the matcher consumes
before returning Success (counted from the current cursor state), or none
if it never succeeds on this stream.  This is the specification-side
notion of the point at which the token completes. -/
def firstMatch (token : List Byte) : Nat → List Byte → Option Nat
  | _, [] => none
  | matched_chars, b :: rest =>
    if b = tokenByte token matched_chars ∧ matched_chars + 1 = token.length then
      some 1
    else
      Option.map (fun k => k + 1)
        (firstMatch token
          (if b = tokenByte token matched_chars then matched_chars + 1 else 0) rest)

/-- Observer for read_for_response: the final value of the matched_chars
cursor after the whole stream has been consumed without a full match, or
none if the matcher returned Success first. -/
def finalCursor (token : List Byte) : Nat → List Byte → Option Nat
  | matched_chars, [] => some matched_chars
  | matched_chars, b :: rest =>
    if b = tokenByte token matched_chars ∧ matched_chars + 1 = token.length then
      none
    else
      finalCursor token
        (if b = tokenByte token matched_chars then matched_chars + 1 else 0) rest

/-- Observer for read_for_response: every value taken by the matched_chars
cursor during the run, in order (the initial value first; if the run
returns Success the final, completing value is last). -/
def rfr_cursors (token : List Byte) : Nat → List Byte → List Nat
  | matched_chars, [] => [matched_chars]
  | matched_chars, b :: rest =>
    if b = tokenByte token matched_chars ∧ matched_chars + 1 = token.length then
      [matched_chars, matched_chars + 1]
    else
      matched_chars ::
        rfr_cursors token
          (if b = tokenByte token matched_chars then matched_chars + 1 else 0) rest

/-- LiteESP8266::read_for_responses (LiteESP8266Client.cpp:266-306).
The dual-token variant: one cursor for the pass token and one for the fail
token, both updated against every incoming byte; the pass token is checked
first, so if a byte completes the pass token the function returns
LITE_ESP8266_SUCCESS before the fail cursor is even examined; a byte that
completes only the fail token returns LITE_ESP8266_FAILURE.  Stream
exhaustion is LITE_ESP8266_TIMEOUT. -/
def read_for_responses (pass fTok : List Byte) : Nat → Nat → List Byte → LiteResult × List Byte
  | _, _, [] => (LiteResult.Timeout, [])
  | pass_matched_chars, fail_matched_characters, b :: rest =>
    if b = tokenByte pass pass_matched_chars ∧
        pass_matched_chars + 1 = pass.length then
      (LiteResult.Success, rest)
    else if b = tokenByte fTok fail_matched_characters ∧
        fail_matched_characters + 1 = fTok.length then
      (LiteResult.Failure, rest)
    else
      read_for_responses pass fTok
        (if b = tokenByte pass pass_matched_chars then pass_matched_chars + 1 else 0)
        (if b = tokenByte fTok fail_matched_characters
         then fail_matched_characters + 1 else 0) rest

/-- LiteESP8266::copy_serial_to_buffer (LiteESP8266Client.cpp:308-350).
Copies stream bytes into the caller's buffer at increasing indices
(bytes_read).  A byte equal to read_until is first written, then stomped
with 0 at the same index, and LITE_ESP8266_SUCCESS is returned.  Otherwise
bytes_read is incremented (uint16_t, hence % 65536) and compared against
max_bytes - 1 (uint16_t arithmetic: (max_bytes + 65535) % 65536, which
wraps to 65535 when max_bytes = 0); when the bound is met, index
bytes_read is stomped with 0 and LITE_ESP8266_LENGTH_EXCEEDED is returned,
the rest of the stream left unread.  Stream exhaustion (deadline) returns
LITE_ESP8266_TIMEOUT with no terminating write.  The middle component of
the result is the write-event log; the last is the unread stream tail. -/
def copy_serial_to_buffer (read_until : Byte) (max_bytes : Nat) :
    Nat → List Byte → LiteResult × List (Nat × Byte) × List Byte
  | _, [] => (LiteResult.Timeout, [], [])
  | bytes_read, b :: rest =>
    if b = read_until then
      (LiteResult.Success, [(bytes_read, b), (bytes_read, 0)], rest)
    else
      if (bytes_read + 1) % 65536 ≥ (max_bytes + 65535) % 65536 then
        (LiteResult.LengthExceeded,
          [(bytes_read, b), ((bytes_read + 1) % 65536, 0)], rest)
      else
        let r := copy_serial_to_buffer read_until max_bytes ((bytes_read + 1) % 65536) rest
        (r.1, (bytes_read, b) :: r.2.1, r.2.2)

/-- Replays a write-event log over an initial buffer-contents function,
giving the final contents of the buffer memory. -/
def bufAfter (ws : List (Nat × Byte)) (buf : Nat → Byte) : Nat → Byte :=
  ws.foldl (fun f w i => if i = w.1 then w.2 else f i) buf

/-- The expected write-event log of a run of copy_serial_to_buffer that
copies the given data bytes starting at index n: each byte lands at the
next index. -/
def dataWrites (n : Nat) : List Byte → List (Nat × Byte)
  | [] => []
  | b :: rest => (n, b) :: dataWrites (n + 1) rest

/-- Reads the C string stored in a buffer: the bytes from index i on, up to
but not including the first 0 byte, with fuel bounding the scan (the
buffer size at call sites). -/
def cstringAux (f : Nat → Byte) : Nat → Nat → List Byte
  | _, 0 => []
  | i, fuel + 1 => if f i = 0 then [] else f i :: cstringAux f (i + 1) fuel

/-- The C string at the start of a buffer of the given size. -/
def cstring (f : Nat → Byte) (size : Nat) : List Byte := cstringAux f 0 size

def isDigit (b : Byte) : Bool := 48 ≤ b ∧ b ≤ 57

def isSpace (b : Byte) : Bool := b = 32 ∨ (9 ≤ b ∧ b ≤ 13)

/-- The digit-accumulation loop of the C library atoi: consume leading
decimal digits, accumulating their value; stop at the first non-digit. -/
def digitsVal : List Byte → Int → Int
  | [], acc => acc
  | b :: rest, acc =>
    if isDigit b then digitsVal rest (acc * 10 + ((b : Int) - 48)) else acc

/-- C library atoi on a byte string: skip leading whitespace, then an
optional sign, then the maximal run of decimal digits; anything else, or
no digits at all, yields 0 for the digit run. -/
def atoi : List Byte → Int
  | [] => 0
  | b :: rest =>
    if isSpace b then atoi rest
    else if b = 45 then -(digitsVal rest 0)
    else if b = 43 then digitsVal rest 0
    else if isDigit b then digitsVal (b :: rest) 0
    else 0

/-- Conversion of the (possibly negative) int returned by atoi to the
unsigned int data_length / content_length of the source; on the AVR target
unsigned int is 16 bits wide. -/
def toUnsigned16 (i : Int) : Nat := (i % 65536).toNat

/-- The length value the packet extractors compute from a captured length
field: data_length = atoi(buffer) with data_length an unsigned int
(LiteESP8266Client.cpp:661 and 714). -/
def parsed_length (s : List Byte) : Nat := toUnsigned16 (atoi s)

/-- The allocation-size computation of the packet extractors
(LiteESP8266Client.cpp:663-671 and 718-726): if max_allocate_bytes >
data_length then data_length + 1 bytes are allocated, else
max_allocate_bytes bytes. -/
def bytes_allocated (max_allocate_bytes data_length : Nat) : Nat :=
  if max_allocate_bytes > data_length then data_length + 1 else max_allocate_bytes

/-- The payload-copy loop of the packet extractors
(LiteESP8266Client.cpp:675-691 and 729-746): for i from 0 to
data_length - 1, wait for a byte (stream exhaustion models the deadline
passing, upon which the loop breaks); a byte with i < bytes_allocated - 1
(unsigned arithmetic, hence the % 65536 form) is stored at index i of the
allocated region, later bytes are read and discarded.  Returns the final
region contents and the unread stream tail. -/
def payload_loop (alloc data_length : Nat) :
    Nat → List Byte → List Byte → List Byte × List Byte
  | _, data, [] => (data, [])
  | i, data, b :: rest =>
    if i < data_length then
      if i < (alloc + 65535) % 65536 then
        payload_loop alloc data_length (i + 1) (data.set i b) rest
      else
        payload_loop alloc data_length (i + 1) data rest
    else (data, b :: rest)

/-- The "+IPD," marker token (ESP8266_DATA_PACKET). -/
def IPD_token : List Byte := [43, 73, 80, 68, 44]

/-- The "Content-Length: " header token (ESP8266_CONTENT_LENGTH_HEADER). -/
def contentLengthToken : List Byte :=
  [67, 111, 110, 116, 101, 110, 116, 45, 76, 101, 110, 103, 116, 104, 58, 32]

/-- The "\r\n\r\n" header/body separator token (ESP8266_CRLFCRLF). -/
def crlfcrlfToken : List Byte := [13, 10, 13, 10]

/-- LiteESP8266::get_response_packet (LiteESP8266Client.cpp:646-696).
Match the "+IPD," marker (anything but Success returns NULL, modelled as
none); capture the decimal length field into a 5-byte stack buffer up to
the ':' terminator — the result code of that capture is ignored by the
source; parse the buffer with atoi into the unsigned data_length; allocate
bytes_allocated zeroed bytes; run the payload copy loop.  The stack
buffer, uninitialized in the source, is modelled as zero-initialized; the
runs studied below terminate the capture explicitly, so no theorem depends
on that choice.  Returns the allocated region (none for NULL) and the
unread stream tail. -/
def get_response_packet (max_allocate_bytes : Nat) (s : List Byte) :
    Option (List Byte) × List Byte :=
  match read_for_response IPD_token 0 s with
  | (LiteResult.Success, s1) =>
    let cap := copy_serial_to_buffer 58 5 0 s1
    let data_length := parsed_length (cstring (bufAfter cap.2.1 (fun _ => 0)) 5)
    let alloc := bytes_allocated max_allocate_bytes data_length
    let out := payload_loop alloc data_length 0 (List.replicate alloc 0) cap.2.2
    (some out.1, out.2)
  | (_, s1) => (none, s1)

/-- LiteESP8266::get_http_response (LiteESP8266Client.cpp:700-752).
Match the "Content-Length: " header token (failure returns NULL); capture
the decimal length field into a 16-byte stack buffer up to the '\r'
terminator — the result code of that capture is ignored by the source;
parse it with atoi into the unsigned content_length; then match the
"\r\n\r\n" header terminator (failure returns NULL); allocate and run the
payload copy loop as in get_response_packet. -/
def get_http_response (max_allocate_bytes : Nat) (s : List Byte) :
    Option (List Byte) × List Byte :=
  match read_for_response contentLengthToken 0 s with
  | (LiteResult.Success, s1) =>
    let cap := copy_serial_to_buffer 13 16 0 s1
    let content_length := parsed_length (cstring (bufAfter cap.2.1 (fun _ => 0)) 16)
    match read_for_response crlfcrlfToken 0 cap.2.2 with
    | (LiteResult.Success, s2) =>
      let alloc := bytes_allocated max_allocate_bytes content_length
      let out := payload_loop alloc content_length 0 (List.replicate alloc 0) s2
      (some out.1, out.2)
    | (_, s2) => (none, s2)
  | (_, s1) => (none, s1)

/-!  Helper lemmas about the single- and dual-token matchers. -/

theorem firstMatch_pos (token : List Byte) (s : List Byte) (m k : Nat)
    (h : firstMatch token m s = some k) : 1 ≤ k := by
  cases s with
  | nil => simp [firstMatch] at h
  | cons b rest =>
    by_cases hc : b = tokenByte token m ∧ m + 1 = token.length
    · simp [firstMatch, hc] at h
      omega
    · simp [firstMatch, hc] at h
      obtain ⟨k', -, hk'⟩ := h
      omega

/-- read_for_response is characterized by firstMatch: if the token first
completes after k bytes the matcher returns Success with exactly those k
bytes consumed, otherwise it consumes the whole stream and times out. -/
theorem read_for_response_eq_firstMatch (token : List Byte) (s : List Byte) :
    ∀ m, read_for_response token m s =
      match firstMatch token m s with
      | some k => (LiteResult.Success, s.drop k)
      | none => (LiteResult.Timeout, []) := by
  induction s with
  | nil => intro m; rfl
  | cons b rest ih =>
    intro m
    by_cases hc : b = tokenByte token m ∧ m + 1 = token.length
    · simp [read_for_response, firstMatch, hc]
    · rw [read_for_response, firstMatch, if_neg hc, if_neg hc, ih]
      cases hk : firstMatch token (if b = tokenByte token m then m + 1 else 0) rest with
      | none => simp
      | some k => simp [List.drop_succ_cons]

theorem firstMatch_take (token : List Byte) (s : List Byte) :
    ∀ m j k, firstMatch token m s = some j → j ≤ k →
      firstMatch token m (s.take k) = some j := by
  induction s with
  | nil => intro m j k h _; simp [firstMatch] at h
  | cons b rest ih =>
    intro m j k h hjk
    have hj1 : 1 ≤ j := firstMatch_pos token (b :: rest) m j h
    obtain ⟨k', rfl⟩ : ∃ k', k = k' + 1 := ⟨k - 1, by omega⟩
    rw [List.take_succ_cons]
    by_cases hc : b = tokenByte token m ∧ m + 1 = token.length
    · rw [firstMatch, if_pos hc] at h ⊢
      exact h
    · rw [firstMatch, if_neg hc] at h ⊢
      obtain ⟨j', hj', rfl⟩ := Option.map_eq_some'.1 h
      rw [ih _ _ k' hj' (by omega)]
      rfl

/-- read_for_responses is characterized by the two firstMatch observers:
whichever token completes first wins, with the pass token winning ties
because its cursor is checked first on every byte. -/
theorem read_for_responses_char (pass fTok : List Byte) (s : List Byte) :
    ∀ pm fm, read_for_responses pass fTok pm fm s =
      match firstMatch pass pm s, firstMatch fTok fm s with
      | some kp, some kf =>
        if kp ≤ kf then (LiteResult.Success, s.drop kp)
        else (LiteResult.Failure, s.drop kf)
      | some kp, none => (LiteResult.Success, s.drop kp)
      | none, some kf => (LiteResult.Failure, s.drop kf)
      | none, none => (LiteResult.Timeout, []) := by
  induction s with
  | nil => intro pm fm; rfl
  | cons b rest ih =>
    intro pm fm
    by_cases hp : b = tokenByte pass pm ∧ pm + 1 = pass.length
    · rw [read_for_responses, if_pos hp, firstMatch, if_pos hp]
      by_cases hf : b = tokenByte fTok fm ∧ fm + 1 = fTok.length
      · rw [firstMatch, if_pos hf]
        simp
      · rw [firstMatch, if_neg hf]
        cases hk : firstMatch fTok
            (if b = tokenByte fTok fm then fm + 1 else 0) rest with
        | none => simp
        | some k => simp
    · rw [read_for_responses, if_neg hp, firstMatch, if_neg hp]
      by_cases hf : b = tokenByte fTok fm ∧ fm + 1 = fTok.length
      · rw [if_pos hf, firstMatch, if_pos hf]
        cases hk : firstMatch pass
            (if b = tokenByte pass pm then pm + 1 else 0) rest with
        | none => simp
        | some k =>
          have : ¬ (k + 1 ≤ 1) := by
            have := firstMatch_pos pass rest _ k hk
            omega
          simp [this]
      · rw [if_neg hf, firstMatch, if_neg hf, ih]
        cases hkp : firstMatch pass
            (if b = tokenByte pass pm then pm + 1 else 0) rest with
        | none =>
          cases hkf : firstMatch fTok
              (if b = tokenByte fTok fm then fm + 1 else 0) rest with
          | none => simp
          | some kf => simp [List.drop_succ_cons]
        | some kp =>
          cases hkf : firstMatch fTok
              (if b = tokenByte fTok fm then fm + 1 else 0) rest with
          | none => simp [List.drop_succ_cons]
          | some kf =>
            by_cases hle : kp ≤ kf
            · simp [hle, List.drop_succ_cons, Nat.add_le_add_iff_right]
            · simp [hle, List.drop_succ_cons, Nat.add_le_add_iff_right]

/-- Composition: if consuming p leaves the matcher's cursor at m' (without a
full match), continuing on p ++ q behaves like starting on q at cursor m'. -/
theorem read_for_response_append (token : List Byte) (p : List Byte) :
    ∀ m m' q, finalCursor token m p = some m' →
      read_for_response token m (p ++ q) = read_for_response token m' q := by
  induction p with
  | nil =>
    intro m m' q h
    simp [finalCursor] at h
    simp [h]
  | cons b rest ih =>
    intro m m' q h
    by_cases hc : b = tokenByte token m ∧ m + 1 = token.length
    · rw [finalCursor, if_pos hc] at h
      exact absurd h (by simp)
    · rw [finalCursor, if_neg hc] at h
      rw [List.cons_append, read_for_response, if_neg hc]
      exact ih _ _ q h

/-- A straight run: with the cursor at m < token length and the remaining
token bytes arriving next, the matcher climbs to Success, consuming exactly
those bytes. -/
theorem read_for_response_run (token : List Byte) (q : List Byte) :
    ∀ d m, m + d = token.length → 1 ≤ d →
      read_for_response token m (token.drop m ++ q) = (LiteResult.Success, q) := by
  intro d
  induction d with
  | zero => intro m _ h; omega
  | succ d ih =>
    intro m hm _
    have hmlt : m < token.length := by omega
    have hdrop : token.drop m = token[m] :: token.drop (m + 1) :=
      List.drop_eq_getElem_cons hmlt
    have htb : tokenByte token m = token[m] := token.getD_eq_getElem 0 hmlt
    rw [hdrop, List.cons_append, read_for_response]
    by_cases hd : d = 0
    · have hlen : m + 1 = token.length := by omega
      rw [if_pos ⟨htb.symm, hlen⟩]
      have : token.drop (m + 1) = [] := by
        apply List.drop_eq_nil_of_le
        omega
      rw [this, List.nil_append]
    · have hne : ¬ (token[m] = tokenByte token m ∧ m + 1 = token.length) := by
        intro hcontra
        omega
      rw [if_neg hne, if_pos htb.symm]
      exact ih (m + 1) (by omega) (by omega)

/-- The cursor invariant of read_for_response, for a non-empty token: from
any cursor below the token length, every cursor value stays at most the
token length, and the cursor value equal to the token length is attained
only on the run's final, Success-returning byte. -/
theorem rfr_cursors_bound (token : List Byte) (s : List Byte) :
    ∀ m, m < token.length →
      (∀ c ∈ rfr_cursors token m s, c ≤ token.length) ∧
      (token.length ∈ rfr_cursors token m s →
        (read_for_response token m s).1 = LiteResult.Success) := by
  induction s with
  | nil =>
    intro m hm
    constructor
    · intro c hc
      simp [rfr_cursors] at hc
      omega
    · intro hmem
      simp [rfr_cursors] at hmem
      omega
  | cons b rest ih =>
    intro m hm
    by_cases hc : b = tokenByte token m ∧ m + 1 = token.length
    · constructor
      · intro c hcm
        rw [rfr_cursors, if_pos hc] at hcm
        simp at hcm
        rcases hcm with h | h <;> omega
      · intro _
        rw [read_for_response, if_pos hc]
    · have hm' : (if b = tokenByte token m then m + 1 else 0) < token.length := by
        by_cases hb : b = tokenByte token m
        · simp only [if_pos hb]
          rcases Nat.lt_or_ge (m + 1) token.length with h | h
          · exact h
          · exfalso
            exact hc ⟨hb, by omega⟩
        · simp only [if_neg hb]
          omega
      obtain ⟨ihb, ihs⟩ := ih _ hm'
      constructor
      · intro c hcm
        rw [rfr_cursors, if_neg hc] at hcm
        rcases List.mem_cons.1 hcm with h | h
        · omega
        · exact ihb c h
      · intro hmem
        rw [rfr_cursors, if_neg hc] at hmem
        rcases List.mem_cons.1 hmem with h | h
        · omega
        · rw [read_for_response, if_neg hc]
          exact ihs h

/-!  Helper lemmas about copy_serial_to_buffer and buffer write logs. -/

theorem bufAfter_append (w1 w2 : List (Nat × Byte)) (f : Nat → Byte) :
    bufAfter (w1 ++ w2) f = bufAfter w2 (bufAfter w1 f) := by
  simp [bufAfter, List.foldl_append]

theorem bufAfter_dataWrites_lt (data : List Byte) :
    ∀ n f j, j < n → bufAfter (dataWrites n data) f j = f j := by
  induction data with
  | nil => intro n f j _; rfl
  | cons b rest ih =>
    intro n f j hj
    show bufAfter (dataWrites (n + 1) rest) (fun i => if i = n then b else f i) j = f j
    rw [ih (n + 1) _ j (by omega)]
    simp [Nat.ne_of_lt hj]

theorem bufAfter_dataWrites_at (data : List Byte) :
    ∀ n f i, i < data.length → bufAfter (dataWrites n data) f (n + i) = data.getD i 0 := by
  induction data with
  | nil => intro n f i hi; simp at hi
  | cons b rest ih =>
    intro n f i hi
    cases i with
    | zero =>
      show bufAfter (dataWrites (n + 1) rest) (fun j => if j = n then b else f j) (n + 0)
        = (b :: rest).getD 0 0
      rw [bufAfter_dataWrites_lt rest (n + 1) _ (n + 0) (by omega)]
      simp
    | succ i' =>
      show bufAfter (dataWrites (n + 1) rest) (fun j => if j = n then b else f j) (n + (i' + 1))
        = (b :: rest).getD (i' + 1) 0
      have : n + (i' + 1) = (n + 1) + i' := by omega
      rw [this, ih (n + 1) _ i' (by simpa using hi)]
      simp

/-- A successful delimited capture: if the terminator is not among the first
data bytes and they all fit below the capacity bound, copy_serial_to_buffer
copies them to consecutive indices, consumes the terminator, stomps it with
0 and stops, leaving the rest of the stream unread. -/
theorem copy_serial_to_buffer_run (read_until : Byte) (max_bytes : Nat)
    (rest : List Byte) (hM : max_bytes < 65536) (h2 : 2 ≤ max_bytes) :
    ∀ (data : List Byte) (n : Nat), read_until ∉ data →
      n + data.length < max_bytes - 1 →
      copy_serial_to_buffer read_until max_bytes n (data ++ read_until :: rest) =
        (LiteResult.Success,
          dataWrites n data ++ [(n + data.length, read_until), (n + data.length, 0)],
          rest) := by
  intro data
  induction data with
  | nil =>
    intro n _ _
    simp [copy_serial_to_buffer, dataWrites]
  | cons b t ih =>
    intro n hmem hfit
    have hb : b ≠ read_until := by
      intro h
      exact hmem (h ▸ List.mem_cons_self b t)
    have hlim : (max_bytes + 65535) % 65536 = max_bytes - 1 := by omega
    have hn1 : (n + 1) % 65536 = n + 1 := by
      have : n + 1 < 65536 := by
        simp [List.length_cons] at hfit
        omega
      omega
    rw [List.cons_append, copy_serial_to_buffer, if_neg (by exact fun h => hb h),
      hlim, hn1]
    have hfit' : (n + 1) + t.length < max_bytes - 1 := by
      simp [List.length_cons] at hfit
      omega
    rw [if_neg (by omega)]
    have ihr := ih (n + 1) (fun h => hmem (List.mem_cons_of_mem b h)) hfit'
    simp only [ihr]
    simp [dataWrites, List.length_cons]
    omega

/-- Bounds of copy_serial_to_buffer for capacities of at least 2: starting
from an index below max_bytes - 1, every recorded write lands strictly
below max_bytes, and a Success or LengthExceeded run ends with a 0 write
(the null terminator). -/
theorem copy_serial_to_buffer_bound (read_until : Byte) (max_bytes : Nat)
    (hM : max_bytes < 65536) (h2 : 2 ≤ max_bytes) :
    ∀ (s : List Byte) (n : Nat), n < max_bytes - 1 →
      (∀ w ∈ (copy_serial_to_buffer read_until max_bytes n s).2.1, w.1 < max_bytes) ∧
      ((copy_serial_to_buffer read_until max_bytes n s).1 = LiteResult.Success ∨
        (copy_serial_to_buffer read_until max_bytes n s).1 = LiteResult.LengthExceeded →
        ((copy_serial_to_buffer read_until max_bytes n s).2.1.map Prod.snd).getLast?
          = some 0) := by
  intro s
  induction s with
  | nil =>
    intro n hn
    constructor
    · intro w hw
      simp [copy_serial_to_buffer] at hw
    · intro h
      rcases h with h | h <;> simp [copy_serial_to_buffer] at h
  | cons b rest ih =>
    intro n hn
    have hlim : (max_bytes + 65535) % 65536 = max_bytes - 1 := by omega
    by_cases hb : b = read_until
    · constructor
      · intro w hw
        rw [copy_serial_to_buffer, if_pos hb] at hw
        simp at hw
        rcases hw with rfl | rfl
        · show n < max_bytes
          omega
        · show n < max_bytes
          omega
      · intro _
        rw [copy_serial_to_buffer, if_pos hb]
        simp
    · have hn1 : (n + 1) % 65536 = n + 1 := by omega
      by_cases hstop : n + 1 ≥ max_bytes - 1
      · constructor
        · intro w hw
          rw [copy_serial_to_buffer, if_neg hb, hlim, hn1, if_pos hstop] at hw
          simp at hw
          rcases hw with rfl | rfl
          · show n < max_bytes
            omega
          · show n + 1 < max_bytes
            omega
        · intro _
          rw [copy_serial_to_buffer, if_neg hb, hlim, hn1, if_pos hstop]
          simp
      · obtain ⟨ihb, ihs⟩ := ih (n + 1) (by omega)
        have hstep : copy_serial_to_buffer read_until max_bytes n (b :: rest) =
            ((copy_serial_to_buffer read_until max_bytes (n + 1) rest).1,
              (n, b) :: (copy_serial_to_buffer read_until max_bytes (n + 1) rest).2.1,
              (copy_serial_to_buffer read_until max_bytes (n + 1) rest).2.2) := by
          rw [copy_serial_to_buffer, if_neg hb, hlim, hn1, if_neg hstop]
        constructor
        · intro w hw
          rw [hstep] at hw
          simp at hw
          rcases hw with rfl | h
          · show n < max_bytes
            omega
          · exact ihb w h
        · intro hres
          rw [hstep] at hres
          have h0 := ihs hres
          rw [hstep]
          simp only [List.map_cons]
          have hne : ((copy_serial_to_buffer read_until max_bytes (n + 1) rest).2.1.map
              Prod.snd) ≠ [] := by
            intro hnil
            rw [hnil] at h0
            simp at h0
          cases hcase : (copy_serial_to_buffer read_until max_bytes (n + 1) rest).2.1.map
              Prod.snd with
          | nil => exact absurd hcase hne
          | cons x xs =>
            rw [hcase] at h0
            rw [List.getLast?_cons_cons]
            exact h0

/-- Final buffer contents after the two same-index writes (data byte, then
terminator stomp) that end a capture. -/
theorem bufAfter_pair (m : Nat) (v1 v2 : Byte) (f : Nat → Byte) (i : Nat) :
    bufAfter [(m, v1), (m, v2)] f i = if i = m then v2 else f i := by
  show (if i = m then v2 else if i = m then v1 else f i) = if i = m then v2 else f i
  by_cases h : i = m <;> simp [h]

/-!  The claims. -/

/-- C1: the claim states that when the length-capture sub-step of
get_response_packet or get_http_response returns Timeout or LengthExceeded,
the operation returns null.  The code contradicts this: it ignores the
result of copy_serial_to_buffer (LiteESP8266Client.cpp:660, 712) and
returns a non-null packet built from the truncated length field.  This
theorem evaluates the code at failing inputs: for get_response_packet, a
stream carrying "+IPD,12345:AB" makes the 5-byte length capture return
LengthExceeded, yet a packet is returned whose contents even swallow the
unread "5:" framing bytes; for get_http_response, a Content-Length value
of 15 bytes with no CR makes the 16-byte capture return LengthExceeded,
yet a packet is still returned. -/
theorem C1_extractor_ignores_capture_result :
    (copy_serial_to_buffer 58 5 0 [49, 50, 51, 52, 53, 58, 65, 66]).1 =
      LiteResult.LengthExceeded ∧
    (get_response_packet 8 (IPD_token ++ [49, 50, 51, 52, 53, 58, 65, 66])).1 =
      some [53, 58, 65, 66, 0, 0, 0, 0] ∧
    (copy_serial_to_buffer 13 16 0
      ([49, 50, 120, 52, 53, 54, 55, 56, 57, 48, 49, 50, 51, 52, 53] ++
        [13, 10, 13, 10, 87, 88, 89, 90])).1 = LiteResult.LengthExceeded ∧
    (get_http_response 4 (contentLengthToken ++
      [49, 50, 120, 52, 53, 54, 55, 56, 57, 48, 49, 50, 51, 52, 53] ++
      [13, 10, 13, 10, 87, 88, 89, 90])).1 = some [87, 88, 89, 0] := by
  exact ⟨rfl, rfl, rfl, rfl⟩

/-- C2 counterexample: the claim quantifies over every stream containing
the token as a contiguous subsequence, but the reset-on-mismatch policy
drops the mismatching byte, so the token 'AB' inside the stream 'AAB' is
never found: the matcher times out instead of returning Success. -/
theorem C2_containment_cex :
    ([65, 65, 66] : List Byte) = [65] ++ [65, 66] ++ [] ∧
    read_for_response [65, 66] 0 [65, 65, 66] = (LiteResult.Timeout, []) := by
  decide

/-- C2 (amended): for a non-empty token T and a stream p ++ T ++ q arriving
before the deadline, where consuming the prefix p leaves the match cursor
at zero without a full match (in particular p = []), read_for_response
returns Success and the next readable byte is the first byte of q.  Mere
containment of T is not sufficient (see the counterexample). -/
theorem C2_matcher_amended (token p q : List Byte) (hne : token ≠ [])
    (hp : finalCursor token 0 p = some 0) :
    read_for_response token 0 (p ++ (token ++ q)) = (LiteResult.Success, q) := by
  rw [read_for_response_append token p 0 0 (token ++ q) hp]
  have hrun := read_for_response_run token q token.length 0 (by omega)
    (List.length_pos.2 hne)
  simpa using hrun

/-- Witness for C2 (amended): token 'AB' after the cursor-resetting prefix
'B' is matched, leaving exactly the suffix unread. -/
theorem C2_matcher_amended_witness :
    read_for_response [65, 66] 0 ([66] ++ ([65, 66] ++ [67])) =
      (LiteResult.Success, [67]) :=
  C2_matcher_amended [65, 66] [66] [67] (by decide) (by decide)

/-- C3 counterexample: the claim includes the capacities max_bytes = 0 and
max_bytes = 1.  With capacity 0, the unsigned max_bytes - 1 wraps to 65535,
so the first stream byte is written at index 0 ≥ 0, outside the declared
capacity.  With capacity 1, a non-terminator byte is written at index 0 and
the null terminator at index 1 ≥ 1, also out of bounds. -/
theorem C3_capacity_cex :
    (copy_serial_to_buffer 58 0 0 [65]).2.1 = [(0, 65)] ∧ ¬ ((0 : Nat) < 0) ∧
    (copy_serial_to_buffer 58 1 0 [65]).2.1 = [(0, 65), (1, 0)] ∧ ¬ ((1 : Nat) < 1) := by
  decide

/-- C3 (amended): for every capacity max_bytes with 2 ≤ max_bytes < 65536,
no write of copy_serial_to_buffer ever lands at an index at or beyond
max_bytes, and every Success or LengthExceeded run ends with a null
terminator write (necessarily in bounds, by the first part). -/
theorem C3_bounds_amended (read_until : Byte) (max_bytes : Nat) (s : List Byte)
    (h2 : 2 ≤ max_bytes) (hM : max_bytes < 65536) :
    (∀ w ∈ (copy_serial_to_buffer read_until max_bytes 0 s).2.1, w.1 < max_bytes) ∧
    ((copy_serial_to_buffer read_until max_bytes 0 s).1 = LiteResult.Success ∨
      (copy_serial_to_buffer read_until max_bytes 0 s).1 = LiteResult.LengthExceeded →
      ((copy_serial_to_buffer read_until max_bytes 0 s).2.1.map Prod.snd).getLast?
        = some 0) :=
  copy_serial_to_buffer_bound read_until max_bytes hM h2 s 0 (by omega)

/-- Witness for C3 (amended): a capacity-4 capture of one byte plus its
terminator ends with a null write. -/
theorem C3_bounds_amended_witness :
    ((copy_serial_to_buffer 13 4 0 [65, 13]).2.1.map Prod.snd).getLast? = some 0 :=
  (C3_bounds_amended 13 4 [65, 13] (by decide) (by decide)).2 (Or.inl (by decide))

/-- C4 counterexample: the claim includes max_allocate_bytes = 0, but there
the allocation branch takes the else case and allocates max_allocate_bytes
= 0 bytes, violating the claimed lower bound of 1; the extractor reaches
that allocation step and returns a zero-byte region. -/
theorem C4_alloc_cex :
    ¬ (1 ≤ bytes_allocated 0 0) ∧
    (get_response_packet 0 (IPD_token ++ [48, 58])).1 = some ([] : List Byte) := by
  exact ⟨by decide, rfl⟩

/-- C4 (amended): for every max_allocate_bytes ≥ 1 the allocated size is at
least 1, and when the reported length is the binding constraint
(data_length < max_allocate_bytes) the size is exactly data_length + 1,
reserving room for the terminator.  max_allocate_bytes = 0 yields a
zero-byte allocation (see the counterexample). -/
theorem C4_alloc_amended (max_allocate_bytes data_length : Nat)
    (h1 : 1 ≤ max_allocate_bytes) :
    1 ≤ bytes_allocated max_allocate_bytes data_length ∧
    (data_length < max_allocate_bytes →
      bytes_allocated max_allocate_bytes data_length = data_length + 1) := by
  unfold bytes_allocated
  constructor
  · split <;> omega
  · intro h
    rw [if_pos h]

/-- Witness for C4 (amended). -/
theorem C4_alloc_amended_witness :
    1 ≤ bytes_allocated 3 1 ∧ bytes_allocated 3 1 = 2 :=
  ⟨(C4_alloc_amended 3 1 (by decide)).1, (C4_alloc_amended 3 1 (by decide)).2 (by decide)⟩

/-- C5: for the stream '+IPD,' ++ '5' ++ ':' ++ five payload bytes ++ one
later byte, get_response_packet with max_allocate_bytes = 3 returns a
region of exactly 3 bytes — the first 2 payload bytes and a null
terminator — and drains the remaining 3 payload bytes, so the unread
stream holds only the bytes after the full 5-byte payload.  (Second
conjunct: the max_allocate_bytes = 10 instance of the same stream returns
the full 6-byte region, 5 data bytes plus terminator.) -/
theorem C5_truncation_drain :
    get_response_packet 3 (IPD_token ++ [53, 58] ++ [65, 66, 67, 68, 69] ++ [90]) =
      (some [65, 66, 0], [90]) ∧
    get_response_packet 10 (IPD_token ++ [53, 58] ++ [65, 66, 67, 68, 69] ++ [90]) =
      (some [65, 66, 67, 68, 69, 0], [90]) := by
  exact ⟨rfl, rfl⟩

/-- C6: for non-empty pass and fail tokens, if the fail token first
completes after k bytes of the stream (firstMatch, i.e. within the
deadline window) and the pass token does not complete anywhere within
those k bytes, then read_for_responses returns Failure — not Success —
with the stream positioned right after the fail token. -/
theorem C6_fail_before_pass (pass fTok s : List Byte) (k : Nat)
    (_hpne : pass ≠ []) (_hfne : fTok ≠ [])
    (hf : firstMatch fTok 0 s = some k)
    (hp : firstMatch pass 0 (s.take k) = none) :
    read_for_responses pass fTok 0 0 s = (LiteResult.Failure, s.drop k) := by
  rw [read_for_responses_char pass fTok s 0 0, hf]
  cases hfp : firstMatch pass 0 s with
  | none => rfl
  | some j =>
    have hj : ¬ j ≤ k := by
      intro hle
      rw [firstMatch_take pass s 0 j k hfp hle] at hp
      exact Option.noConfusion hp
    simp [hj]

/-- Witness for C6: fail token 'E' completes on the first byte of 'EOK'
while the pass token 'OK' has not completed there; result is Failure. -/
theorem C6_fail_before_pass_witness :
    read_for_responses [79, 75] [69] 0 0 [69, 79, 75] =
      (LiteResult.Failure, [79, 75]) :=
  C6_fail_before_pass [79, 75] [69] [69, 79, 75] 1 (by decide) (by decide)
    (by decide) (by decide)

/-- C7 counterexample: the claim includes zero-length tokens.  For the
empty token, a NUL byte on the stream matches the terminator at position 0
of the empty string, pushing the cursor to 1, which exceeds the token
length 0 — and although the cursor started at the token length, the
matcher does not return Success. -/
theorem C7_cursor_cex :
    1 ∈ rfr_cursors [] 0 [0] ∧ List.length ([] : List Byte) < 1 ∧
    (read_for_response [] 0 [0]).1 ≠ LiteResult.Success := by
  decide

/-- C7 (amended): for every non-empty token, in every execution of
read_for_response the matched_chars cursor never exceeds the token length,
and whenever the cursor reaches the token length the run returns Success
(the completing byte is the last byte consumed). -/
theorem C7_cursor_amended (token s : List Byte) (hne : token ≠ []) :
    (∀ c ∈ rfr_cursors token 0 s, c ≤ token.length) ∧
    (token.length ∈ rfr_cursors token 0 s →
      (read_for_response token 0 s).1 = LiteResult.Success) :=
  rfr_cursors_bound token s 0 (List.length_pos.2 hne)

/-- Witness for C7 (amended): cursor for token 'A' reaches its length on
the stream 'BA' and the run returns Success. -/
theorem C7_cursor_amended_witness :
    (read_for_response [65] 0 [66, 65]).1 = LiteResult.Success :=
  (C7_cursor_amended [65] [66, 65] (by decide)).2 (by decide)

/-- C8: for capacity max_bytes with 2 ≤ max_bytes < 65536 and a terminator
arriving at stream position k < max_bytes - 1 (k prior bytes, none equal
to the terminator, all before the deadline), copy_serial_to_buffer returns
Success, the buffer then holds exactly the first k bytes at indices
0..k-1 followed by a null terminator at index k, and the terminator byte
is consumed from the stream: the unread tail is exactly what followed it. -/
theorem C8_delimited_success (read_until : Byte) (max_bytes : Nat)
    (data rest : List Byte) (buf : Nat → Byte)
    (h2 : 2 ≤ max_bytes) (hM : max_bytes < 65536)
    (hk : data.length < max_bytes - 1) (hmem : read_until ∉ data) :
    (copy_serial_to_buffer read_until max_bytes 0 (data ++ read_until :: rest)).1 =
      LiteResult.Success ∧
    (copy_serial_to_buffer read_until max_bytes 0 (data ++ read_until :: rest)).2.2 =
      rest ∧
    (∀ i, i < data.length →
      bufAfter (copy_serial_to_buffer read_until max_bytes 0
        (data ++ read_until :: rest)).2.1 buf i = data.getD i 0) ∧
    bufAfter (copy_serial_to_buffer read_until max_bytes 0
      (data ++ read_until :: rest)).2.1 buf data.length = 0 := by
  have hrun := copy_serial_to_buffer_run read_until max_bytes rest hM h2 data 0
    hmem (by omega)
  rw [hrun]
  refine ⟨rfl, rfl, ?_, ?_⟩
  · intro i hi
    rw [bufAfter_append, bufAfter_pair]
    rw [if_neg (by omega)]
    have := bufAfter_dataWrites_at data 0 buf i hi
    simpa using this
  · rw [bufAfter_append, bufAfter_pair]
    rw [if_pos (by omega : data.length = 0 + data.length)]

/-- Witness for C8: capacity 4, data byte 'A', terminator CR, trailing
byte left unread; buffer index 0 holds the data byte, index 1 the null. -/
theorem C8_delimited_success_witness :
    (copy_serial_to_buffer 13 4 0 [65, 13, 66]).1 = LiteResult.Success ∧
    (copy_serial_to_buffer 13 4 0 [65, 13, 66]).2.2 = [66] ∧
    bufAfter (copy_serial_to_buffer 13 4 0 [65, 13, 66]).2.1 (fun _ => 7) 0 = 65 ∧
    bufAfter (copy_serial_to_buffer 13 4 0 [65, 13, 66]).2.1 (fun _ => 7) 1 = 0 := by
  have h := C8_delimited_success 13 4 [65] [66] (fun _ => 7) (by decide) (by decide)
    (by decide) (by decide)
  exact ⟨h.1, h.2.1, h.2.2.1 0 (by decide), h.2.2.2⟩

/-- C9 counterexample: the claim states that every malformed digit string
parses to 0, giving '-3' as an example that must yield L = 0.  But atoi
parses the sign: atoi('-3') = -3, and the assignment to the unsigned
16-bit data_length wraps it to 65533, not 0. -/
theorem C9_atoi_cex :
    parsed_length [45, 51] = 65533 ∧ parsed_length [45, 51] ≠ 0 := by
  decide

/-- C9 (amended): the parsed length is always a non-negative integer below
2^16; a captured string whose first byte is not whitespace, a sign, or a
digit parses to 0 (so such parse failures are indistinguishable from a
zero-length payload); but a leading sign is honoured and wrapped, so the
capture '-3' yields 65533 rather than 0. -/
theorem C9_atoi_amended :
    (∀ s : List Byte, parsed_length s < 65536) ∧
    (∀ (b : Byte) (s : List Byte), isSpace b = false → isDigit b = false →
      b ≠ 43 → b ≠ 45 → parsed_length (b :: s) = 0) ∧
    parsed_length [45, 51] = 65533 := by
  refine ⟨?_, ?_, by decide⟩
  · intro s
    unfold parsed_length toUnsigned16
    have h1 : atoi s % 65536 < 65536 := Int.emod_lt_of_pos _ (by decide)
    have h2 : 0 ≤ atoi s % 65536 := Int.emod_nonneg _ (by decide)
    omega
  · intro b s hsp hdg h43 h45
    unfold parsed_length toUnsigned16
    rw [atoi, if_neg (by simp [hsp]), if_neg h45, if_neg h43, if_neg (by simp [hdg])]
    decide

/-- Witness for C9 (amended): the alphabetic capture 'X5' parses to 0 and
is below 2^16. -/
theorem C9_atoi_amended_witness :
    parsed_length [88, 53] = 0 ∧ parsed_length [88] < 65536 :=
  ⟨C9_atoi_amended.2.1 88 [53] (by decide) (by decide) (by decide) (by decide),
    C9_atoi_amended.1 [88]⟩

/-- C10: when the pass and fail tokens first complete after the same number
of bytes k — i.e. the same incoming byte completes both — read_for_responses
returns Success: the pass cursor is checked and advanced before the fail
cursor on every byte, so the pass token wins the tie. -/
theorem C10_tie_pass_wins (pass fTok s : List Byte) (k : Nat)
    (hp : firstMatch pass 0 s = some k) (hf : firstMatch fTok 0 s = some k) :
    read_for_responses pass fTok 0 0 s = (LiteResult.Success, s.drop k) := by
  rw [read_for_responses_char pass fTok s 0 0, hp, hf]
  simp

/-- Witness for C10: pass token 'A' and fail token 'BA' both complete on
the second byte of the stream 'BA'; the result is Success. -/
theorem C10_tie_pass_wins_witness :
    read_for_responses [65] [66, 65] 0 0 [66, 65] = (LiteResult.Success, []) :=
  C10_tie_pass_wins [65] [66, 65] [66, 65] 2 (by decide) (by decide)
